import Mathlib

/-!
Secret Santa wheel: the assignment-and-reconciliation engine, shallowly embedded.

Shallow embedding of the core of `src/app.js` (classes `State`, `LocalStore`,
the store-facing parts of `Controller`: `handleSpin` and `commitAssignment`),
faithful to the JavaScript source:

* a JS object holding the assignments is modelled as an insertion-ordered
  association list `Obj` (`objGet` = property read, first occurrence;
  `objSet` = property write: update in place if the key exists, else append);
* the JS truthiness test `!this.assignments[key]` used by `mergeAssignments`
  is modelled by `truthy`: a missing key and the empty string are falsy,
  every other string value is truthy;
* a JS `Set` (`assignedRecipients`) is modelled by a list queried only
  through membership (`hasStr`), exactly how the code queries it (`has`);
* the stores are modelled by oracles: `Script.reads`/`Script.writes` give
  the outcome of the n-th remote `getFile`/`putFile` call, the local store
  is a mutable `Option Obj` that never fails; `Math.random`-based
  `randomChoice` is an index oracle `Script.picks`;
* `commitAssignment`'s `while (retryCount < maxRetries)` loop is structured
  as one loop iteration (`commitIter`) driven by fuel (`commitLoop`); the
  fuel-exhausted base case corresponds to falling out of the `while` loop to
  the `Failed after multiple retries` report at the end of the function.
-/

/-- A JS object with string values, in property insertion order. -/
abbrev Obj := List (String × String)

/-- Property read: value at the first occurrence of the key. -/
def objGet : Obj → String → Option String
  | [], _ => none
  | (k', v) :: t, k => if k' = k then some v else objGet t k

/-- Property write `o[k] = v`: update the existing property in place,
otherwise append a new property (JS insertion-order semantics). -/
def objSet : Obj → String → String → Obj
  | [], k, v => [(k, v)]
  | (k', v') :: t, k, v =>
    if k' = k then (k', v) :: t else (k', v') :: objSet t k v

/-- JS truthiness of a property read: absent and `""` are falsy. -/
def truthy : Option String → Bool
  | none => false
  | some v => v ≠ ""

/-- `Array.includes` / `Set.has` on string lists. -/
def hasStr (l : List String) (x : String) : Bool := l.contains x

/-- The in-memory model (`class State` in `src/app.js`). -/
structure SState where
  participants : List String
  assignments : Obj
  assignedRecipients : List String
  deriving Repr, DecidableEq

/-- `State.updateAssignedRecipients`: clear the set and re-add every value of
the assignments mapping (the set is modelled by its membership list). -/
def updateAssignedRecipients (s : SState) : SState :=
  { s with assignedRecipients := s.assignments.map Prod.snd }

/-- `State.addAssignment(spinner, recipient)`. -/
def addAssignment (s : SState) (spinner recipient : String) : SState :=
  updateAssignedRecipients
    { s with assignments := objSet s.assignments spinner recipient }

/-- `State.getEligibleRecipients(spinnerIdentity)`; `null` is collapsed into
`""` (both are falsy in the JS guard `spinnerIdentity && spinnerIdentity !== ''`). -/
def getEligibleRecipients (s : SState) (ident : String) : List String :=
  let eligible := s.participants.filter (fun p => !(hasStr s.assignedRecipients p))
  if ident = "" then eligible else eligible.filter (fun p => p != ident)

/-- The object-level part of `State.mergeAssignments`: for every key of the
remote object, adopt the remote value when the local property read is falsy
(`if (!this.assignments[key]) this.assignments[key] = remoteAssignments[key]`).
A JS object's keys are unique, so iterating the remote's properties in order
is iterating `Object.keys`. -/
def mergeObjs (lo : Obj) (remote : Obj) : Obj :=
  remote.foldl
    (fun acc kv => if truthy (objGet acc kv.1) then acc else objSet acc kv.1 kv.2)
    lo

/-- `State.mergeAssignments(remoteAssignments)` followed by its trailing
`updateAssignedRecipients()`. -/
def mergeAssignments (s : SState) (remote : Obj) : SState :=
  updateAssignedRecipients { s with assignments := mergeObjs s.assignments remote }

/-- `State.loadState(data)`: replace the mapping when the payload has an
`assignments` field, then recompute the derived set. -/
def loadState (s : SState) (data : Option Obj) : SState :=
  match data with
  | some o => updateAssignedRecipients { s with assignments := o }
  | none => s

/-- A fresh client whose `State` was loaded from a store snapshot. -/
def clientLoad (parts : List String) (head : Obj) : SState :=
  loadState { participants := parts, assignments := [], assignedRecipients := [] }
    (some head)

/-- Recipient uniqueness of a ledger object: no two properties share a value
(each recipient identifier appears in at most one assignment). -/
def recipientUnique (o : Obj) : Prop := (o.map Prod.snd).Nodup

instance (o : Obj) : Decidable (recipientUnique o) := by
  unfold recipientUnique; infer_instance

/-- The loop body of `mergeAssignments` as a named function (identical to the
lambda inside `mergeObjs`). -/
def mergeStep (acc : Obj) (kv : String × String) : Obj :=
  if truthy (objGet acc kv.1) then acc else objSet acc kv.1 kv.2


-- ===========================================================================
-- The coordinator (`Controller.handleSpin` / `Controller.commitAssignment`)
-- ===========================================================================

/-- Environment oracles: outcome of the n-th remote `getFile` (content of the
state resource and its sha, or a thrown error), outcome of the n-th remote
`putFile` (`ok`, or a thrown error carrying its HTTP `status` — `none` for a
network-level failure with no status), and the index consumed by the n-th
`randomChoice`; plus the `maxCommitRetries` configuration value. -/
structure Script where
  reads : Nat → Except Unit (Option Obj × Option String)
  writes : Nat → Except (Option Nat) Unit
  picks : Nat → Nat
  maxCommitRetries : Nat

/-- `this.config.maxCommitRetries || 3` (JS: `0` is falsy). -/
def effRetries (sc : Script) : Nat :=
  if sc.maxCommitRetries = 0 then 3 else sc.maxCommitRetries

/-- Observable machine state threaded through one client session: the
in-memory `State`, which store is active (`this.store === this.localStore`),
the local store's content for the state resource, call counters for the
oracles, and a trace (shas returned by remote reads, remote write attempts
with content and the sha argument, local store writes, backoff delays). -/
structure St where
  state : SState
  usingLocal : Bool
  localData : Option Obj
  readCount : Nat
  writeCount : Nat
  pickIdx : Nat
  readShas : List (Option String)
  writeLog : List (Obj × Option String)
  localWrites : List Obj
  waits : List Nat
  deriving Repr, DecidableEq

/-- Terminal outcomes of a spin / commit run, one per `return` site of
`Controller.commitAssignment` and `Controller.handleSpin`. -/
inductive CommitResult
  /-- successful `putFile`: confetti, `showResult(recipient)`. -/
  | committed (recipient : String)
  /-- outer catch with the remote store active: "GitHub write failed. Saving
  to local storage.", local write, `showResult(recipient)`. -/
  | fallenBack (recipient : String)
  /-- re-pick with `isAdjustment = false`: adjustment spin, then the code
  re-invokes `commitAssignment(spinnerName, recipient, true)`. -/
  | adjusting (recipient : String)
  /-- "No eligible recipients remaining. Please refresh." inside the loop. -/
  | noEligible
  /-- outer catch with the local store already active: "Failed to save
  assignment.". -/
  | failedLocal
  /-- fell out of the `while` loop: "Failed after multiple retries. Please
  refresh and try again.". -/
  | retriesExhausted
  /-- `handleSpin`: "No eligible recipients remaining." before any store
  interaction. -/
  | rejected
  /-- `handleSpin`'s defensive re-check of the freshly picked target. -/
  | pickErr
  deriving Repr, DecidableEq

/-- Result of one iteration of the commit loop: a terminal outcome, or
`continue` after a conflict backoff (carrying the possibly re-picked
recipient and the incremented retry counter). -/
inductive IterStep
  | done (st : St) (res : CommitResult)
  | again (st : St) (recipient : String) (rc : Nat)
  deriving Repr, DecidableEq

/-- `randomChoice(array)`: an element selected by the index oracle
(`array[Math.floor(Math.random() * array.length)]`). -/
def pickFrom (l : List String) (n : Nat) : String := l.getD (n % l.length) ""

/-- Loop step (a): read the state resource from the active store; on a remote
read error, fall back to `LocalStore.getFile` and make the local store the
active store. `LocalStore.getFile` returns sha `"local"` for stored data and
`{content: null, sha: null}` when absent. -/
def readPhase (sc : Script) (st : St) : St × Option Obj × Option String :=
  if st.usingLocal then
    (st, st.localData, if st.localData.isSome then some "local" else none)
  else
    match sc.reads st.readCount with
    | .ok (content, sha) =>
      ({ st with readCount := st.readCount + 1, readShas := st.readShas ++ [sha] },
        content, sha)
    | .error _ =>
      ({ st with readCount := st.readCount + 1, usingLocal := true },
        st.localData, if st.localData.isSome then some "local" else none)

/-- The outer `catch` of `commitAssignment` (lines 827–848): with the remote
store active, switch to the local store, write the current in-memory ledger
there with a `null` sha (`LocalStore.putFile` needs no version check), and
report the recipient; with the local store already active, report failure. -/
def catchFallback (st : St) (recipient : String) : St × CommitResult :=
  if st.usingLocal then (st, .failedLocal)
  else
    ({ st with
        usingLocal := true,
        localData := some st.state.assignments,
        localWrites := st.localWrites ++ [st.state.assignments] },
      .fallenBack recipient)

/-- Loop steps (d)–(e): final re-validation, `addAssignment`, and the
`putFile` attempt with the sha obtained by this iteration's read; a `409`
inside the retry budget waits 1000 ms and continues the loop, any other
failure is rethrown into the outer catch. -/
def proceedWrite (sc : Script) (spinnerName recipient : String)
    (sha : Option String) (rc : Nat) (st : St) : IterStep :=
  let s := updateAssignedRecipients st.state
  if hasStr s.assignedRecipients recipient then
    -- `throw new Error('Recipient ... is already assigned ...')`
    let out := catchFallback { st with state := s } recipient
    .done out.1 out.2
  else
    let s2 := addAssignment s spinnerName recipient
    let st2 := { st with state := s2 }
    if st2.usingLocal then
      -- `LocalStore.putFile`: unconditional local write, then the success path
      .done { st2 with
                localData := some s2.assignments,
                localWrites := st2.localWrites ++ [s2.assignments] }
        (.committed recipient)
    else
      match sc.writes st2.writeCount with
      | .ok _ =>
        .done { st2 with
                  writeCount := st2.writeCount + 1,
                  writeLog := st2.writeLog ++ [(s2.assignments, sha)] }
          (.committed recipient)
      | .error status =>
        let st3 := { st2 with
                       writeCount := st2.writeCount + 1,
                       writeLog := st2.writeLog ++ [(s2.assignments, sha)] }
        if status = some 409 ∧ rc + 1 < effRetries sc then
          .again { st3 with waits := st3.waits ++ [1000] } recipient (rc + 1)
        else
          let out := catchFallback st3 recipient
          .done out.1 out.2

/-- One iteration of the `while (retryCount < maxRetries)` body of
`commitAssignment`: read, merge (when the read produced content with an
`assignments` field), re-validate and possibly re-pick the recipient, then
validate/record/write. -/
def commitIter (sc : Script) (identity spinnerName : String) (isAdjustment : Bool)
    (recipient : String) (rc : Nat) (st : St) : IterStep :=
  let rp := readPhase sc st
  let st1 := rp.1
  let content := rp.2.1
  let sha := rp.2.2
  match content with
  | some remoteObj =>
    let s0 := mergeAssignments st1.state remoteObj
    let s := updateAssignedRecipients s0
    let eligible := getEligibleRecipients s identity
    if !(hasStr eligible recipient) || hasStr s.assignedRecipients recipient then
      if eligible.isEmpty then .done { st1 with state := s } .noEligible
      else
        let newRecipient := pickFrom eligible (sc.picks st1.pickIdx)
        let st2 := { st1 with state := s, pickIdx := st1.pickIdx + 1 }
        if !isAdjustment then .done st2 (.adjusting newRecipient)
        else proceedWrite sc spinnerName newRecipient sha rc st2
    else proceedWrite sc spinnerName recipient sha rc { st1 with state := s }
  | none => proceedWrite sc spinnerName recipient sha rc st1

/-- The retry loop, driven by fuel `maxRetries - retryCount`; the fuel-0 base
case is the fall-through out of the `while` loop ("Failed after multiple
retries"). -/
def commitLoop (sc : Script) (identity spinnerName : String) (isAdjustment : Bool) :
    Nat → String → Nat → St → St × CommitResult
  | 0, _, _, st => (st, .retriesExhausted)
  | fuel + 1, recipient, rc, st =>
    match commitIter sc identity spinnerName isAdjustment recipient rc st with
    | .done st' res => (st', res)
    | .again st' r' rc' => commitLoop sc identity spinnerName isAdjustment fuel r' rc' st'

/-- `Controller.commitAssignment(spinnerName, recipient, isAdjustment)`:
`retryCount = 0`, budget `maxCommitRetries || 3`. -/
def commitAssignment (sc : Script) (identity spinnerName : String)
    (isAdjustment : Bool) (recipient : String) (st : St) : St × CommitResult :=
  commitLoop sc identity spinnerName isAdjustment (effRetries sc) recipient 0 st

/-- `Controller.handleSpin` followed by the commit (the wheel animation is
pure presentation): refresh the derived set, compute eligibility for the
declared identity, reject when empty, pick a uniformly random target,
defensively re-check it, then run `commitAssignment` with spinner key
`spinnerIdentity || 'anonymous'`; when the commit returns the adjustment
marker, the adjustment spin's completion callback re-invokes
`commitAssignment` with `isAdjustment = true` and the new recipient. -/
def runSpin (sc : Script) (identity : String) (st : St) : St × CommitResult :=
  let s := updateAssignedRecipients st.state
  let eligible := getEligibleRecipients s identity
  if eligible.isEmpty then ({ st with state := s }, .rejected)
  else
    let target := pickFrom eligible (sc.picks st.pickIdx)
    let st1 := { st with state := s, pickIdx := st.pickIdx + 1 }
    if !(hasStr eligible target) || hasStr s.assignedRecipients target then
      (st1, .pickErr)
    else
      let spinnerName := if identity = "" then "anonymous" else identity
      match commitAssignment sc identity spinnerName false target st1 with
      | (st2, .adjusting r') => commitAssignment sc identity spinnerName true r' st2
      | out => out

/-- A sequence of spin requests against one client session, each with its own
declared identity. -/
def runSpinSeq (sc : Script) (idents : List String) (st : St) :
    St × List CommitResult :=
  match idents with
  | [] => (st, [])
  | i :: rest =>
    let out := runSpin sc i st
    let outs := runSpinSeq sc rest out.1
    (outs.1, out.2 :: outs.2)

/-- A session's starting machine state around a given in-memory `State`. -/
def initSt (s : SState) : St :=
  { state := s, usingLocal := false, localData := none, readCount := 0,
    writeCount := 0, pickIdx := 0, readShas := [], writeLog := [],
    localWrites := [], waits := [] }


/-- The recipient reported to the caller (`showResult`) or handed to the
adjustment spin, when the outcome carries one. -/
def resultRecipient : CommitResult → Option String
  | .committed r => some r
  | .fallenBack r => some r
  | .adjusting r => some r
  | _ => none

/-- The machine state carried by an iteration outcome. -/
def iterSt : IterStep → St
  | .done st _ => st
  | .again st _ _ => st

-- Concrete environments used in the scenarios below.

/-- Participants of the concurrent-clients scenario. -/
def santaParts : List String := ["A", "B", "C", "D", "P", "Q"]

/-- A store whose reads always return the given state-resource content and
sha and whose writes always succeed; the index oracle constantly returns
`pick`. A run against it performs at most one read, so the constant read
models "the read returns the store head current at commit time". -/
def okScript (head : Obj) (sha : String) (pick : Nat) : Script :=
  { reads := fun _ => .ok (some head, some sha),
    writes := fun _ => .ok (),
    picks := fun _ => pick,
    maxCommitRetries := 3 }

/-- Client 1, first spin (declared identity `A`), store head `{}`. -/
def chainRun1 : St × CommitResult :=
  runSpin (okScript [] "s0" 0) "A"
    (initSt { participants := santaParts, assignments := [], assignedRecipients := [] })

/-- Client 1 again (identity `A` spins a second time), store head `{A:B}`. -/
def chainRun2 : St × CommitResult :=
  runSpin (okScript [("A", "B")] "s1" 0) "A" (initSt chainRun1.1.state)

/-- Client 2, loaded while the head was `{A:B}`, spinning as `P` after the
head moved to `{A:C}`. -/
def chainRun3 : St × CommitResult :=
  runSpin (okScript [("A", "C")] "s2" 1) "P"
    (initSt (clientLoad santaParts [("A", "B")]))

/-- Client 3, loaded while the head was `{A:C}`, spinning as `Q` after the
head moved to `{A:B, P:C}`. -/
def chainRun4 : St × CommitResult :=
  runSpin (okScript [("A", "B"), ("P", "C")] "s3" 2) "Q"
    (initSt (clientLoad santaParts [("A", "C")]))

/-- A remote store that rejects every write with HTTP 409 (version conflict);
reads succeed with an existing empty assignments object and fresh shas. -/
def conflictScript : Script :=
  { reads := fun n => .ok (some [], some (toString n)),
    writes := fun _ => .error (some 409),
    picks := fun _ => 0,
    maxCommitRetries := 3 }

/-- A small fresh client. -/
def smallClient : SState :=
  { participants := ["A", "B", "C", "D"], assignments := [], assignedRecipients := [] }

/-- Full spin flow of `smallClient` (identity `A`) against `conflictScript`. -/
def conflictRun : St × CommitResult := runSpin conflictScript "A" (initSt smallClient)

/-- A remote store whose first write fails with a status-less network error
(a transient condition) and whose second write would succeed. -/
def transientScript : Script :=
  { reads := fun n => .ok (some [], some (toString n)),
    writes := fun n => if n = 0 then .error none else .ok (),
    picks := fun _ => 0,
    maxCommitRetries := 3 }

/-- Full spin flow of `smallClient` (identity `A`) against `transientScript`. -/
def transientRun : St × CommitResult := runSpin transientScript "A" (initSt smallClient)

/-- A remote store whose writes always fail with HTTP 403 Forbidden; the
state resource does not exist yet (`content` and sha are null). -/
def forbiddenScript : Script :=
  { reads := fun _ => .ok (none, none),
    writes := fun _ => .error (some 403),
    picks := fun _ => 0,
    maxCommitRetries := 3 }

/-- A client state in which every participant already appears as a recipient. -/
def exhaustedClient : SState :=
  { participants := ["A", "B"], assignments := [("x", "A"), ("y", "B")],
    assignedRecipients := ["A", "B"] }

-- ===========================================================================
-- Lemmas
-- ===========================================================================

theorem objGet_objSet_self (o : Obj) (k v : String) :
    objGet (objSet o k v) k = some v := by
  induction o with
  | nil => simp [objSet, objGet]
  | cons p t ih =>
    by_cases h : p.1 = k
    · simp [objSet, objGet, h]
    · simp [objSet, objGet, h, ih]

theorem objGet_objSet_other (o : Obj) (k k' v : String) (h : k' ≠ k) :
    objGet (objSet o k v) k' = objGet o k' := by
  have hkk : ¬ k = k' := fun hh => h hh.symm
  induction o with
  | nil => simp [objSet, objGet, hkk]
  | cons p t ih =>
    obtain ⟨k0, v0⟩ := p
    by_cases hk : k0 = k
    · have h3 : ¬ k0 = k' := by rw [hk]; exact hkk
      simp [objSet, objGet, hk, h3, hkk]
    · by_cases h2 : k0 = k'
      · simp [objSet, objGet, hk, h2, h, hkk]
      · simp [objSet, objGet, hk, h2, ih]

theorem objSet_same (o : Obj) (k v : String) (h : objGet o k = some v) :
    objSet o k v = o := by
  induction o with
  | nil => simp [objGet] at h
  | cons p t ih =>
    by_cases hk : p.1 = k
    · simp [objGet, hk] at h
      cases p with
      | mk k0 v0 => simp_all [objSet]
    · simp [objGet, hk] at h
      simp [objSet, hk, ih h]

theorem hasStr_iff_mem (l : List String) (x : String) :
    hasStr l x = true ↔ x ∈ l := by
  simp [hasStr]

theorem mergeObjs_eq_foldl (lo remote : Obj) :
    mergeObjs lo remote = remote.foldl mergeStep lo := rfl

theorem objGet_mergeStep_other (M : Obj) (kv : String × String) (k : String)
    (h : kv.1 ≠ k) : objGet (mergeStep M kv) k = objGet M k := by
  unfold mergeStep
  split
  · rfl
  · exact objGet_objSet_other M kv.1 k kv.2 (fun hh => h hh.symm)

theorem truthy_mergeStep (M : Obj) (kv : String × String) (k : String)
    (h : truthy (objGet M k) = true) :
    truthy (objGet (mergeStep M kv) k) = true := by
  by_cases hk : kv.1 = k
  · unfold mergeStep
    split
    · exact h
    · next hg =>
      rw [hk] at hg
      exact absurd h hg
  · rw [objGet_mergeStep_other M kv k hk]; exact h

theorem truthy_mergeFold (R : Obj) (M : Obj) (k : String)
    (h : truthy (objGet M k) = true) :
    truthy (objGet (R.foldl mergeStep M) k) = true := by
  induction R generalizing M with
  | nil => exact h
  | cons p rest ih => exact ih (mergeStep M p) (truthy_mergeStep M p k h)

theorem objGet_merge_of_truthy (R : Obj) (L : Obj) (k : String)
    (h : truthy (objGet L k) = true) :
    objGet (R.foldl mergeStep L) k = objGet L k := by
  induction R generalizing L with
  | nil => rfl
  | cons p rest ih =>
    have hstep : objGet (mergeStep L p) k = objGet L k := by
      by_cases hk : p.1 = k
      · unfold mergeStep
        split
        · rfl
        · next hg => rw [hk] at hg; exact absurd h hg
      · exact objGet_mergeStep_other L p k hk
    rw [List.foldl_cons, ih (mergeStep L p) (by rw [hstep]; exact h), hstep]

theorem objGet_fold_not_mem (R : Obj) (M : Obj) (k : String)
    (h : ∀ kv ∈ R, kv.1 ≠ k) :
    objGet (R.foldl mergeStep M) k = objGet M k := by
  induction R generalizing M with
  | nil => rfl
  | cons p rest ih =>
    rw [List.foldl_cons, ih (mergeStep M p) (fun kv hm => h kv (List.mem_cons_of_mem p hm)),
      objGet_mergeStep_other M p k (h p (List.mem_cons_self p rest))]

theorem objGet_fold_of_empty (R : Obj) (M : Obj) (k : String)
    (h : objGet M k = some "") :
    objGet (R.foldl mergeStep M) k = some "" ∨
      truthy (objGet (R.foldl mergeStep M) k) = true := by
  induction R generalizing M with
  | nil => exact Or.inl h
  | cons p rest ih =>
    by_cases hk : p.1 = k
    · have hg : truthy (objGet M p.1) = false := by rw [hk, h]; rfl
      have hstep : mergeStep M p = objSet M p.1 p.2 := by
        unfold mergeStep; rw [hg]; simp
      by_cases hv : p.2 = ""
      · have : objGet (mergeStep M p) k = some "" := by
          rw [hstep, ← hk, objGet_objSet_self, hv]
        exact ih (mergeStep M p) this
      · have : truthy (objGet (mergeStep M p) k) = true := by
          rw [hstep, ← hk, objGet_objSet_self]
          simpa [truthy] using hv
        exact Or.inr (truthy_mergeFold rest (mergeStep M p) k this)
    · exact ih (mergeStep M p) (by rw [objGet_mergeStep_other M p k hk]; exact h)

theorem merge_key_covered (R : Obj) (M : Obj) (k v : String)
    (h : (k, v) ∈ R) :
    truthy (objGet (R.foldl mergeStep M) k) = true ∨
      (objGet (R.foldl mergeStep M) k = some "" ∧ v = "") := by
  induction R generalizing M with
  | nil => cases h
  | cons p rest ih =>
    rcases List.mem_cons.mp h with heq | hmem
    · subst heq
      rw [List.foldl_cons]
      by_cases hg : truthy (objGet M k) = true
      · exact Or.inl (truthy_mergeFold rest (mergeStep M (k, v)) k
          (truthy_mergeStep M (k, v) k hg))
      · have hstep : mergeStep M (k, v) = objSet M k v := by
          unfold mergeStep
          simp only [Bool.not_eq_true] at hg
          rw [hg]; simp
        by_cases hv : v = ""
        · have hsome : objGet (mergeStep M (k, v)) k = some "" := by
            rw [hstep, objGet_objSet_self, hv]
          rcases objGet_fold_of_empty rest (mergeStep M (k, v)) k hsome with h1 | h1
          · exact Or.inr ⟨h1, hv⟩
          · exact Or.inl h1
        · have : truthy (objGet (mergeStep M (k, v)) k) = true := by
            rw [hstep, objGet_objSet_self]
            simpa [truthy] using hv
          exact Or.inl (truthy_mergeFold rest (mergeStep M (k, v)) k this)
    · rw [List.foldl_cons]
      exact ih (mergeStep M p) hmem

theorem mergeFold_id (R : Obj) (M : Obj)
    (h : ∀ kv ∈ R, truthy (objGet M kv.1) = true ∨ objGet M kv.1 = some kv.2) :
    R.foldl mergeStep M = M := by
  induction R with
  | nil => rfl
  | cons p rest ih =>
    have hstep : mergeStep M p = M := by
      rcases h p (List.mem_cons_self p rest) with h1 | h1
      · unfold mergeStep; rw [h1]; simp
      · unfold mergeStep
        split
        · rfl
        · exact objSet_same M p.1 p.2 h1
    rw [List.foldl_cons, hstep,
      ih (fun kv hm => h kv (List.mem_cons_of_mem p hm))]

theorem mergeObjs_idem (L R : Obj) :
    mergeObjs (mergeObjs L R) R = mergeObjs L R := by
  rw [mergeObjs_eq_foldl, mergeObjs_eq_foldl]
  apply mergeFold_id
  intro kv hm
  rcases merge_key_covered R L kv.1 kv.2 (by cases kv; exact hm) with h1 | ⟨h1, h2⟩
  · exact Or.inl h1
  · exact Or.inr (by rw [h1, h2])

theorem objGet_merge_of_none (R L : Obj) (k : String)
    (h0 : objGet L k = none) (hnd : (R.map Prod.fst).Nodup) :
    objGet (R.foldl mergeStep L) k = objGet R k := by
  induction R generalizing L with
  | nil => simpa [objGet] using h0
  | cons p rest ih =>
    obtain ⟨k0, v0⟩ := p
    simp only [List.map_cons, List.nodup_cons] at hnd
    by_cases hk : k0 = k
    · subst hk
      have hstep : mergeStep L (k0, v0) = objSet L k0 v0 := by
        unfold mergeStep
        simp [h0, truthy]
      have hrest : ∀ kv ∈ rest, kv.1 ≠ k0 := by
        intro kv hm heq
        exact hnd.1 (heq ▸ List.mem_map_of_mem Prod.fst hm)
      rw [List.foldl_cons, hstep, objGet_fold_not_mem rest _ k0 hrest,
        objGet_objSet_self]
      simp [objGet]
    · have hstep : objGet (mergeStep L (k0, v0)) k = objGet L k :=
        objGet_mergeStep_other L (k0, v0) k hk
      rw [List.foldl_cons, ih (mergeStep L (k0, v0)) (by rw [hstep]; exact h0) hnd.2]
      simp [objGet, hk]

theorem mem_values_objSet (o : Obj) (k r x : String)
    (hx : x ∈ (objSet o k r).map Prod.snd) : x ∈ o.map Prod.snd ∨ x = r := by
  induction o with
  | nil =>
    simp only [objSet, List.map_cons, List.map_nil, List.mem_singleton] at hx
    exact Or.inr hx
  | cons p t ih =>
    obtain ⟨k0, v0⟩ := p
    simp only [List.map_cons, List.mem_cons]
    by_cases hk : k0 = k
    · have hset : objSet ((k0, v0) :: t) k r = (k0, r) :: t := by
        simp [objSet, hk]
      rw [hset] at hx
      simp only [List.map_cons, List.mem_cons] at hx
      rcases hx with h | h
      · exact Or.inr h
      · exact Or.inl (Or.inr h)
    · have hset : objSet ((k0, v0) :: t) k r = (k0, v0) :: objSet t k r := by
        simp [objSet, hk]
      rw [hset] at hx
      simp only [List.map_cons, List.mem_cons] at hx
      rcases hx with h | h
      · exact Or.inl (Or.inl h)
      · rcases ih h with h2 | h2
        · exact Or.inl (Or.inr h2)
        · exact Or.inr h2

theorem values_objSet_nodup (o : Obj) (k r : String)
    (hu : (o.map Prod.snd).Nodup) (hr : r ∉ o.map Prod.snd) :
    ((objSet o k r).map Prod.snd).Nodup := by
  induction o with
  | nil => simp [objSet]
  | cons p t ih =>
    obtain ⟨k0, v0⟩ := p
    simp only [List.map_cons, List.nodup_cons] at hu
    simp only [List.map_cons, List.mem_cons] at hr
    push_neg at hr
    by_cases hk : k0 = k
    · have hset : objSet ((k0, v0) :: t) k r = (k0, r) :: t := by
        simp [objSet, hk]
      rw [hset]
      simp only [List.map_cons, List.nodup_cons]
      exact ⟨hr.2, hu.2⟩
    · have hset : objSet ((k0, v0) :: t) k r = (k0, v0) :: objSet t k r := by
        simp [objSet, hk]
      rw [hset]
      simp only [List.map_cons, List.nodup_cons]
      refine ⟨?_, ih hu.2 hr.2⟩
      intro hmem
      rcases mem_values_objSet t k r v0 hmem with h | h
      · exact hu.1 h
      · exact hr.1 h.symm

theorem not_mem_of_hasStr_false (l : List String) (x : String)
    (h : hasStr l x = false) : x ∉ l := by
  intro hmem
  rw [← hasStr_iff_mem] at hmem
  rw [h] at hmem
  cases hmem

-- ===========================================================================
-- Claim theorems
-- ===========================================================================

/-- C10: `mergeAssignments` does not preserve recipient-uniqueness: the
local ledger `{A:B}` and the remote mapping `{X:B}` are each individually
recipient-unique, yet merging yields `{A:B, X:B}`, which assigns recipient
`B` to the two distinct spinner keys `A` and `X`. -/
theorem C10_merge_duplicates_recipient :
    recipientUnique [("A", "B")] ∧ recipientUnique [("X", "B")] ∧
    (mergeAssignments
        { participants := ["A", "B", "X"], assignments := [("A", "B")],
          assignedRecipients := ["B"] } [("X", "B")]).assignments
      = [("A", "B"), ("X", "B")] ∧
    ¬ recipientUnique [("A", "B"), ("X", "B")] :=
  ⟨by decide, by decide, rfl, by decide⟩

/-- C9: applying `mergeAssignments` twice with the same remote mapping
yields exactly the same ledger state (assignments mapping and derived
assigned-recipient set) as applying it once, for every local state and every
remote mapping. -/
theorem C9_merge_idempotent (s : SState) (remote : Obj) :
    mergeAssignments (mergeAssignments s remote) remote
      = mergeAssignments s remote := by
  simp [mergeAssignments, updateAssignedRecipients, mergeObjs_idem]

/-- C2 counterexample: `mergeAssignments` *can* overwrite an existing
local key. The guard is the JS truthiness test `!this.assignments[key]`, so
a key whose local value is the empty string `""` is treated as absent: local
`{A:""}` merged with remote `{A:C, D:E}` ends with `A` remapped to `"C"`,
overwriting the existing local key `A`, contradicting the claim's "never
removes or overwrites an existing local key" for every local ledger. -/
theorem C2_counterexample :
    objGet [("A", "")] "A" = some "" ∧
    (mergeAssignments
        { participants := ["A", "C", "D", "E"], assignments := [("A", "")],
          assignedRecipients := [""] } [("A", "C"), ("D", "E")]).assignments
      = [("A", "C"), ("D", "E")] ∧
    objGet [("A", "C"), ("D", "E")] "A" = some "C" ∧
    (some "C" : Option String) ≠ some "" :=
  ⟨rfl, rfl, rfl, by decide⟩

/-- C2 amended: for every key whose local value is *truthy* (present and
non-empty), `mergeAssignments` preserves the local value; for every key
absent from the local mapping it adopts the remote value (remote keys are
unique, as JS object keys are). A local key holding the empty string is the
only exception: the JS-falsy guard treats it as absent. -/
theorem C2_amended_merge_no_overwrite (L R : Obj) (k : String) :
    (truthy (objGet L k) = true → objGet (mergeObjs L R) k = objGet L k) ∧
    (objGet L k = none → (R.map Prod.fst).Nodup →
      objGet (mergeObjs L R) k = objGet R k) := by
  constructor
  · intro h
    rw [mergeObjs_eq_foldl]
    exact objGet_merge_of_truthy R L k h
  · intro h0 hnd
    rw [mergeObjs_eq_foldl]
    exact objGet_merge_of_none R L k h0 hnd

/-- Witness for `C2_amended_merge_no_overwrite` at the spec's own example
(`{A:B}` merged with `{A:C, D:E}`): `A:B` is preserved, `D:E` adopted. -/
theorem C2_amended_merge_no_overwrite_witness :
    (truthy (objGet [("A", "B")] "A") = true ∧
      objGet (mergeObjs [("A", "B")] [("A", "C"), ("D", "E")]) "A"
        = objGet [("A", "B")] "A") ∧
    (objGet [("A", "B")] "D" = none ∧
      ((([("A", "C"), ("D", "E")] : Obj).map Prod.fst).Nodup) ∧
      objGet (mergeObjs [("A", "B")] [("A", "C"), ("D", "E")]) "D"
        = objGet [("A", "C"), ("D", "E")] "D") :=
  ⟨⟨by decide,
     (C2_amended_merge_no_overwrite [("A", "B")] [("A", "C"), ("D", "E")] "A").1
       (by decide)⟩,
   ⟨by decide, by decide,
     (C2_amended_merge_no_overwrite [("A", "B")] [("A", "C"), ("D", "E")] "D").2
       (by decide) (by decide)⟩⟩

/-- C1 counterexample: a sequence of four *successful* commits (every run
ends `committed`, every write carries the sha its commit loop just read, and
each run's read content is exactly the previous run's written content, i.e.
the writes are serialized with no version conflict) whose final committed
ledger maps the two distinct spinner keys `A` and `P` to the same recipient
`C`. The runs: client 1 spins twice as `A` (`A:B`, then re-spins to `A:C`,
overwriting its own key); client 2, which loaded while the head was `{A:B}`,
commits `P:C` (its stale local `A:B` wins the merge against the head `{A:C}`,
so `C` looks unassigned); client 3, which loaded at `{A:C}`, merges the head
`{A:B, P:C}` — local `A:C` wins and `P:C` is adopted, giving `{A:C, P:C}` —
and commits `Q:D`, publishing the duplicate. -/
theorem C1_counterexample :
    chainRun1.2 = CommitResult.committed "B" ∧
    chainRun1.1.writeLog = [([("A", "B")], some "s0")] ∧
    chainRun2.2 = CommitResult.committed "C" ∧
    chainRun2.1.writeLog = [([("A", "C")], some "s1")] ∧
    chainRun3.2 = CommitResult.committed "C" ∧
    chainRun3.1.writeLog = [([("A", "B"), ("P", "C")], some "s2")] ∧
    chainRun4.2 = CommitResult.committed "D" ∧
    chainRun4.1.writeLog = [([("A", "C"), ("P", "C"), ("Q", "D")], some "s3")] ∧
    ¬ recipientUnique [("A", "C"), ("P", "C"), ("Q", "D")] :=
  ⟨rfl, rfl, rfl, rfl, rfl, rfl, rfl, rfl, by decide⟩

/-- C1 amended: one successful commit taken in isolation preserves
recipient-uniqueness — the final validation (`assignedRecipients.has`)
rejects any recipient already present, so `addAssignment` on a valid state
keeps the values of the ledger pairwise distinct. Global uniqueness over
arbitrary multi-client histories fails (see the counterexample): the merge
step can combine a stale local entry with remote entries into a duplicate. -/
theorem C1_amended_guarded_add_unique (s : SState) (k r : String)
    (hu : recipientUnique s.assignments)
    (hg : hasStr (updateAssignedRecipients s).assignedRecipients r = false) :
    recipientUnique (addAssignment (updateAssignedRecipients s) k r).assignments := by
  have hr : r ∉ s.assignments.map Prod.snd :=
    not_mem_of_hasStr_false _ _ hg
  exact values_objSet_nodup s.assignments k r hu hr

/-- Witness for `C1_amended_guarded_add_unique`: adding `X:C` to the
recipient-unique ledger `{A:B}` after the guard accepts `C`. -/
theorem C1_amended_guarded_add_unique_witness :
    recipientUnique
      (addAssignment
        (updateAssignedRecipients
          { participants := ["A", "B", "C", "X"], assignments := [("A", "B")],
            assignedRecipients := ["B"] }) "X" "C").assignments :=
  C1_amended_guarded_add_unique
    { participants := ["A", "B", "C", "X"], assignments := [("A", "B")],
      assignedRecipients := ["B"] } "X" "C" (by decide) (by decide)

theorem pickFrom_mem (l : List String) (n : Nat) (h : l ≠ []) :
    pickFrom l n ∈ l := by
  unfold pickFrom
  have hlen : 0 < l.length := List.length_pos.mpr h
  have hlt : n % l.length < l.length := Nat.mod_lt _ hlen
  rw [List.getD_eq_getElem?_getD, List.getElem?_eq_getElem hlt]
  exact List.getElem_mem hlt

theorem mem_eligible_ne (s : SState) (identity p : String) (hid : identity ≠ "")
    (hp : p ∈ getEligibleRecipients s identity) : p ≠ identity := by
  unfold getEligibleRecipients at hp
  rw [if_neg hid] at hp
  have := List.of_mem_filter hp
  simpa using this

theorem effRetries_pos (sc : Script) : 0 < effRetries sc := by
  unfold effRetries
  split
  · omega
  · next h => omega

theorem catchFallback_cases (st : St) (r : String) :
    (st.usingLocal = true ∧ catchFallback st r = (st, .failedLocal)) ∨
    (st.usingLocal = false ∧
      catchFallback st r =
        ({ st with
            usingLocal := true,
            localData := some st.state.assignments,
            localWrites := st.localWrites ++ [st.state.assignments] },
          .fallenBack r)) := by
  unfold catchFallback
  by_cases h : st.usingLocal <;> simp [h]

theorem proceedWrite_cases (sc : Script) (sn r : String) (sha : Option String)
    (rc : Nat) (st : St) :
    (∃ st', proceedWrite sc sn r sha rc st = .done st' (.committed r)) ∨
    (∃ st', proceedWrite sc sn r sha rc st = .done st' (.fallenBack r)) ∨
    (∃ st', proceedWrite sc sn r sha rc st = .done st' .failedLocal) ∨
    (∃ st', proceedWrite sc sn r sha rc st = .again st' r (rc + 1) ∧
      rc + 1 < effRetries sc) := by
  unfold proceedWrite
  dsimp only
  split
  · rcases catchFallback_cases
      { st with state := updateAssignedRecipients st.state } r with ⟨h1, hc⟩ | ⟨h1, hc⟩
    · rw [hc]
      exact Or.inr (Or.inr (Or.inl ⟨_, rfl⟩))
    · rw [hc]
      exact Or.inr (Or.inl ⟨_, rfl⟩)
  · split
    · exact Or.inl ⟨_, rfl⟩
    · split
      · exact Or.inl ⟨_, rfl⟩
      · split
        · next h =>
          exact Or.inr (Or.inr (Or.inr ⟨_, rfl, h.2⟩))
        · rcases catchFallback_cases _ r with ⟨h1, hc⟩ | ⟨h1, hc⟩
          · rw [hc]
            exact Or.inr (Or.inr (Or.inl ⟨_, rfl⟩))
          · rw [hc]
            exact Or.inr (Or.inl ⟨_, rfl⟩)

theorem done_eq_props (s1 : St) (res1 : CommitResult) (P : St → String → Nat → Prop)
    (hres : res1 ≠ CommitResult.retriesExhausted) :
    (∀ st' res, IterStep.done s1 res1 = .done st' res →
        res ≠ CommitResult.retriesExhausted) ∧
    (∀ st' r' rc', IterStep.done s1 res1 = .again st' r' rc' → P st' r' rc') := by
  constructor
  · intro st' res heq
    cases heq
    exact hres
  · intro st' r' rc' heq
    cases heq

theorem again_eq_props (s1 : St) (r1 : String) (rc : Nat) (sc : Script)
    (hlt : rc + 1 < effRetries sc) :
    (∀ st' res, IterStep.again s1 r1 (rc + 1) = .done st' res →
        res ≠ CommitResult.retriesExhausted) ∧
    (∀ st' r' rc', IterStep.again s1 r1 (rc + 1) = .again st' r' rc' →
        rc' = rc + 1 ∧ rc' < effRetries sc) := by
  constructor
  · intro st' res heq
    cases heq
  · intro st' r' rc' heq
    cases heq
    exact ⟨rfl, hlt⟩

theorem commitIter_no_exhausted (sc : Script) (idt sn : String) (adj : Bool)
    (r : String) (rc : Nat) (st : St) :
    (∀ st' res, commitIter sc idt sn adj r rc st = .done st' res →
        res ≠ CommitResult.retriesExhausted) ∧
    (∀ st' r' rc', commitIter sc idt sn adj r rc st = .again st' r' rc' →
        rc' = rc + 1 ∧ rc' < effRetries sc) := by
  have hPW : ∀ (r0 : String) (sha : Option String) (st0 : St),
      (∀ st' res, proceedWrite sc sn r0 sha rc st0 = .done st' res →
          res ≠ CommitResult.retriesExhausted) ∧
      (∀ st' r' rc', proceedWrite sc sn r0 sha rc st0 = .again st' r' rc' →
          rc' = rc + 1 ∧ rc' < effRetries sc) := by
    intro r0 sha st0
    rcases proceedWrite_cases sc sn r0 sha rc st0 with
      ⟨s1, h⟩ | ⟨s1, h⟩ | ⟨s1, h⟩ | ⟨s1, h, hlt⟩ <;> rw [h]
    · exact done_eq_props _ _ _ (by simp)
    · exact done_eq_props _ _ _ (by simp)
    · exact done_eq_props _ _ _ (by simp)
    · exact again_eq_props _ _ _ _ hlt
  unfold commitIter
  dsimp only
  split
  · split
    · split
      · exact done_eq_props _ _ _ (by simp)
      · split
        · exact done_eq_props _ _ _ (by simp)
        · exact hPW _ _ _
    · exact hPW _ _ _
  · exact hPW _ _ _

theorem commitLoop_no_exhausted (sc : Script) (idt sn : String) (adj : Bool) :
    ∀ (fuel : Nat) (r : String) (rc : Nat) (st : St),
      rc < effRetries sc → effRetries sc ≤ rc + fuel →
      (commitLoop sc idt sn adj fuel r rc st).2 ≠ CommitResult.retriesExhausted := by
  intro fuel
  induction fuel with
  | zero =>
    intro r rc st h1 h2
    omega
  | succ n ih =>
    intro r rc st h1 h2
    have hiter := commitIter_no_exhausted sc idt sn adj r rc st
    unfold commitLoop
    cases hcase : commitIter sc idt sn adj r rc st with
    | done st' res =>
      exact hiter.1 st' res hcase
    | again st' r' rc' =>
      obtain ⟨hrc, hlt⟩ := hiter.2 st' r' rc' hcase
      subst hrc
      exact ih r' (rc + 1) st' hlt (by omega)

/-- C4 amended: exhausting the retry budget on Conflict can never end in
the "Failed after multiple retries" report — for every store behaviour,
identity, spinner, recipient and machine state, `commitAssignment` never
returns `retriesExhausted` (the final Conflict is rethrown into the outer
catch, which falls back to the local store instead; the `while` loop's
fall-through report is dead code whenever the retry budget is positive,
which `maxCommitRetries || 3` guarantees). -/
theorem C4_amended_no_retries_exhausted_report (sc : Script)
    (identity spinnerName : String) (isAdjustment : Bool) (recipient : String)
    (st : St) :
    (commitAssignment sc identity spinnerName isAdjustment recipient st).2 ≠
      CommitResult.retriesExhausted := by
  unfold commitAssignment
  exact commitLoop_no_exhausted sc identity spinnerName isAdjustment
    (effRetries sc) recipient 0 st (effRetries_pos sc) (by omega)

/-- C4 counterexample: against a store that rejects every write with
Conflict (HTTP 409), the full spin flow does *not* end in the
retries-exhausted report with the ledger left unassigned — it ends
`FallenBack` with the recipient reported: the in-memory ledger contains the
spin's entry `A:C` and that ledger was written to the local store. -/
theorem C4_counterexample :
    conflictRun.2 = CommitResult.fallenBack "C" ∧
    conflictRun.2 ≠ CommitResult.retriesExhausted ∧
    objGet conflictRun.1.state.assignments "A" = some "C" ∧
    conflictRun.1.localWrites = [[("A", "C")]] :=
  ⟨rfl, by decide, rfl, rfl⟩

theorem readPhase_frame (sc : Script) (st : St) :
    (readPhase sc st).1.waits = st.waits ∧
    (readPhase sc st).1.writeLog = st.writeLog ∧
    (readPhase sc st).1.writeCount = st.writeCount ∧
    (readPhase sc st).1.localWrites = st.localWrites := by
  unfold readPhase
  split
  · exact ⟨rfl, rfl, rfl, rfl⟩
  · split <;> exact ⟨rfl, rfl, rfl, rfl⟩

theorem catchFallback_frame (st : St) (r : String) :
    (catchFallback st r).1.waits = st.waits ∧
    (catchFallback st r).1.writeLog = st.writeLog ∧
    (catchFallback st r).1.writeCount = st.writeCount := by
  unfold catchFallback
  split <;> exact ⟨rfl, rfl, rfl⟩

theorem proceedWrite_waits (sc : Script) (sn r0 : String) (sha : Option String)
    (rc : Nat) (st0 : St) :
    (∀ st' res, proceedWrite sc sn r0 sha rc st0 = .done st' res →
        st'.waits = st0.waits) ∧
    (∀ st' r' rc', proceedWrite sc sn r0 sha rc st0 = .again st' r' rc' →
        st'.waits = st0.waits ++ [1000]) := by
  unfold proceedWrite
  dsimp only
  split
  · constructor
    · intro st' res heq
      cases heq
      rw [(catchFallback_frame _ _).1]
    · intro st' r' rc' heq
      cases heq
  · split
    · constructor
      · intro st' res heq
        cases heq
        rfl
      · intro st' r' rc' heq
        cases heq
    · split
      · constructor
        · intro st' res heq
          cases heq
          rfl
        · intro st' r' rc' heq
          cases heq
      · split
        · constructor
          · intro st' res heq
            cases heq
          · intro st' r' rc' heq
            cases heq
            rfl
        · constructor
          · intro st' res heq
            cases heq
            rw [(catchFallback_frame _ _).1]
          · intro st' r' rc' heq
            cases heq

theorem commitIter_waits (sc : Script) (idt sn : String) (adj : Bool)
    (r : String) (rc : Nat) (st : St) :
    (∀ st' res, commitIter sc idt sn adj r rc st = .done st' res →
        st'.waits = st.waits) ∧
    (∀ st' r' rc', commitIter sc idt sn adj r rc st = .again st' r' rc' →
        st'.waits = st.waits ++ [1000]) := by
  have hrp := (readPhase_frame sc st).1
  have hPW : ∀ (r1 : String) (st1 : St), st1.waits = st.waits →
      (∀ st' res, proceedWrite sc sn r1 (readPhase sc st).2.2 rc st1 = .done st' res →
          st'.waits = st.waits) ∧
      (∀ st' r' rc', proceedWrite sc sn r1 (readPhase sc st).2.2 rc st1 = .again st' r' rc' →
          st'.waits = st.waits ++ [1000]) := by
    intro r1 st1 hw
    have h := proceedWrite_waits sc sn r1 (readPhase sc st).2.2 rc st1
    exact ⟨fun st' res heq => by rw [h.1 st' res heq, hw],
      fun st' r' rc' heq => by rw [h.2 st' r' rc' heq, hw]⟩
  unfold commitIter
  dsimp only
  split
  · split
    · split
      · constructor
        · intro st' res heq
          cases heq
          exact hrp
        · intro st' r' rc' heq
          cases heq
      · split
        · constructor
          · intro st' res heq
            cases heq
            exact hrp
          · intro st' r' rc' heq
            cases heq
        · exact hPW _ _ hrp
    · exact hPW _ _ hrp
  · exact hPW _ _ hrp

theorem commitLoop_waits (sc : Script) (idt sn : String) (adj : Bool) :
    ∀ (fuel : Nat) (r : String) (rc : Nat) (st : St) (w : Nat),
      w ∈ (commitLoop sc idt sn adj fuel r rc st).1.waits →
      w ∈ st.waits ∨ w = 1000 := by
  intro fuel
  induction fuel with
  | zero =>
    intro r rc st w hw
    exact Or.inl hw
  | succ n ih =>
    intro r rc st w hw
    unfold commitLoop at hw
    cases hcase : commitIter sc idt sn adj r rc st with
    | done st' res =>
      rw [hcase] at hw
      have hw' : w ∈ st'.waits := hw
      rw [(commitIter_waits sc idt sn adj r rc st).1 st' res hcase] at hw'
      exact Or.inl hw'
    | again st' r' rc' =>
      rw [hcase] at hw
      have hw' : w ∈ (commitLoop sc idt sn adj n r' rc' st').1.waits := hw
      rcases ih r' rc' st' w hw' with h | h
      · rw [(commitIter_waits sc idt sn adj r rc st).2 st' r' rc' hcase] at h
        rcases List.mem_append.mp h with h2 | h2
        · exact Or.inl h2
        · simp at h2
          exact Or.inr h2
      · exact Or.inr h

theorem readPhase_remote_ok (sc : Script) (st : St) (content : Option Obj)
    (sha : Option String) (hL : st.usingLocal = false)
    (hread : sc.reads st.readCount = .ok (content, sha)) :
    readPhase sc st =
      ({ st with readCount := st.readCount + 1, readShas := st.readShas ++ [sha] },
        content, sha) := by
  simp [readPhase, hL, hread]

theorem proceedWrite_writeLog (sc : Script) (sn r0 : String) (sha : Option String)
    (rc : Nat) (st0 : St) :
    (∀ st' res, proceedWrite sc sn r0 sha rc st0 = .done st' res →
        st'.writeLog = st0.writeLog ∨
        ∃ c, st'.writeLog = st0.writeLog ++ [(c, sha)]) ∧
    (∀ st' r' rc', proceedWrite sc sn r0 sha rc st0 = .again st' r' rc' →
        ∃ c, st'.writeLog = st0.writeLog ++ [(c, sha)]) := by
  unfold proceedWrite
  dsimp only
  split
  · constructor
    · intro st' res heq
      cases heq
      left
      rw [(catchFallback_frame _ _).2.1]
    · intro st' r' rc' heq
      cases heq
  · split
    · constructor
      · intro st' res heq
        cases heq
        left
        rfl
      · intro st' r' rc' heq
        cases heq
    · split
      · constructor
        · intro st' res heq
          cases heq
          right
          exact ⟨_, rfl⟩
        · intro st' r' rc' heq
          cases heq
      · split
        · constructor
          · intro st' res heq
            cases heq
          · intro st' r' rc' heq
            cases heq
            exact ⟨_, rfl⟩
        · constructor
          · intro st' res heq
            cases heq
            right
            rw [(catchFallback_frame _ _).2.1]
            exact ⟨_, rfl⟩
          · intro st' r' rc' heq
            cases heq

theorem commitIter_fresh_sha (sc : Script) (idt sn : String) (adj : Bool)
    (r : String) (rc : Nat) (st : St) (content : Option Obj) (sha : Option String)
    (hL : st.usingLocal = false)
    (hread : sc.reads st.readCount = .ok (content, sha)) :
    (iterSt (commitIter sc idt sn adj r rc st)).writeLog = st.writeLog ∨
    ∃ c, (iterSt (commitIter sc idt sn adj r rc st)).writeLog
        = st.writeLog ++ [(c, sha)] := by
  have hgen : ∀ (R : String) (ST2 : St), ST2.writeLog = st.writeLog →
      (iterSt (proceedWrite sc sn R sha rc ST2)).writeLog = st.writeLog ∨
      ∃ c, (iterSt (proceedWrite sc sn R sha rc ST2)).writeLog
          = st.writeLog ++ [(c, sha)] := by
    intro R ST2 hW
    cases hcase : proceedWrite sc sn R sha rc ST2 with
    | done st' res =>
      rcases (proceedWrite_writeLog sc sn R sha rc ST2).1 st' res hcase with h | ⟨c, h⟩
      · left
        rw [show iterSt (IterStep.done st' res) = st' from rfl, h, hW]
      · right
        exact ⟨c, by rw [show iterSt (IterStep.done st' res) = st' from rfl, h, hW]⟩
    | again st' r' rc' =>
      obtain ⟨c, h⟩ := (proceedWrite_writeLog sc sn R sha rc ST2).2 st' r' rc' hcase
      right
      exact ⟨c, by rw [show iterSt (IterStep.again st' r' rc') = st' from rfl, h, hW]⟩
  have hrp := readPhase_remote_ok sc st content sha hL hread
  unfold commitIter
  rw [hrp]
  dsimp only
  cases content with
  | some remoteObj =>
    dsimp only
    split
    · split
      · left
        rfl
      · split
        · left
          rfl
        · exact hgen _ _ rfl
    · exact hgen _ _ rfl
  | none => exact hgen _ _ rfl

/-- C8 counterexample: in the full spin flow against the always-Conflict
store, three Conflict backoffs occur (one in the initial `commitAssignment`
call, two in the adjustment call whose attempt counter reaches 2) and every
recorded delay is the constant 1000 ms; the claimed linearly increasing rule
`attempt × 1s` would instead make the recorded delays `[1000, 1000, 2000]`
(the adjustment loop's second backoff being `2 × 1s`). -/
theorem C8_counterexample :
    conflictRun.1.waits = [1000, 1000, 1000] ∧
    ([1000, 1000, 1000] : List Nat) ≠ [1000, 1000, 2000] :=
  ⟨rfl, by decide⟩

/-- C8 amended: the backoff after a Conflict is the *constant* 1000 ms
(`setTimeout(resolve, 1000)`), not `attempt × 1s`: every delay ever recorded
by a commit run is 1000. The freshly-read-version half of the claim does
hold: in any loop iteration that starts with a remote read, a remote write
attempted in that iteration carries exactly the sha returned by that read —
a stale sha from an earlier iteration is never reused. -/
theorem C8_amended_constant_backoff_fresh_read (sc : Script)
    (identity spinnerName : String) (isAdjustment : Bool) :
    (∀ (recipient : String) (st : St), st.waits = [] →
      ∀ w ∈ (commitAssignment sc identity spinnerName isAdjustment recipient st).1.waits,
        w = 1000) ∧
    (∀ (recipient : String) (rc : Nat) (st : St) (content : Option Obj)
        (sha : Option String),
      st.usingLocal = false →
      sc.reads st.readCount = Except.ok (content, sha) →
      (iterSt (commitIter sc identity spinnerName isAdjustment recipient rc st)).writeLog
          = st.writeLog ∨
      ∃ c, (iterSt (commitIter sc identity spinnerName isAdjustment recipient rc st)).writeLog
          = st.writeLog ++ [(c, sha)]) := by
  constructor
  · intro recipient st hw w hmem
    unfold commitAssignment at hmem
    rcases commitLoop_waits sc identity spinnerName isAdjustment
      (effRetries sc) recipient 0 st w hmem with h | h
    · rw [hw] at h
      cases h
    · exact h
  · intro recipient rc st content sha hL hread
    exact commitIter_fresh_sha sc identity spinnerName isAdjustment
      recipient rc st content sha hL hread

/-- Witness for `C8_amended_constant_backoff_fresh_read` at the concrete
always-Conflict store and a fresh client. -/
theorem C8_amended_constant_backoff_fresh_read_witness :
    (∀ w ∈ (commitAssignment conflictScript "A" "A" false "B" (initSt smallClient)).1.waits,
        w = 1000) ∧
    ((iterSt (commitIter conflictScript "A" "A" false "B" 0 (initSt smallClient))).writeLog
        = (initSt smallClient).writeLog ∨
      ∃ c, (iterSt (commitIter conflictScript "A" "A" false "B" 0 (initSt smallClient))).writeLog
        = (initSt smallClient).writeLog ++ [(c, some "0")]) :=
  ⟨(C8_amended_constant_backoff_fresh_read conflictScript "A" "A" false).1 "B"
      (initSt smallClient) rfl,
   (C8_amended_constant_backoff_fresh_read conflictScript "A" "A" false).2 "B" 0
      (initSt smallClient) (some []) (some "0") rfl rfl⟩

theorem proceedWrite_non409_fallback (sc : Script) (sn r : String)
    (sha : Option String) (rc : Nat) (st : St) (e : Option Nat)
    (hL : st.usingLocal = false)
    (hw : sc.writes st.writeCount = .error e) (h409 : e ≠ some 409)
    (hv : hasStr (updateAssignedRecipients st.state).assignedRecipients r = false) :
    proceedWrite sc sn r sha rc st =
      .done
        { st with
            state := addAssignment (updateAssignedRecipients st.state) sn r,
            usingLocal := true,
            localData :=
              some (addAssignment (updateAssignedRecipients st.state) sn r).assignments,
            writeCount := st.writeCount + 1,
            writeLog := st.writeLog ++
              [((addAssignment (updateAssignedRecipients st.state) sn r).assignments, sha)],
            localWrites := st.localWrites ++
              [(addAssignment (updateAssignedRecipients st.state) sn r).assignments] }
        (.fallenBack r) := by
  have hvp : ¬ (hasStr (updateAssignedRecipients st.state).assignedRecipients r = true) := by
    rw [hv]
    exact Bool.false_ne_true
  have hLp : ¬ (st.usingLocal = true) := by
    rw [hL]
    exact Bool.false_ne_true
  have hcond : ¬ (e = some 409 ∧ rc + 1 < effRetries sc) := fun hc => h409 hc.1
  unfold proceedWrite
  dsimp only
  rw [if_neg hvp, if_neg hLp, hw]
  dsimp only
  rw [if_neg hcond]
  unfold catchFallback
  rw [if_neg hLp]

/-- C5 counterexample: the first write fails with a status-less transient
network error while the second write would succeed, yet the run consumes
exactly one write attempt, performs no backoff wait, and falls back to the
local store instead of retrying to the Committed result the claim's
retry-until-budget rule would produce. -/
theorem C5_counterexample :
    transientScript.writes 1 = Except.ok () ∧
    transientRun.2 = CommitResult.fallenBack "B" ∧
    transientRun.2 ≠ CommitResult.committed "B" ∧
    transientRun.1.writeCount = 1 ∧
    transientRun.1.waits = [] ∧
    transientRun.1.localWrites = [[("A", "B")]] :=
  ⟨rfl, rfl, by decide, rfl, rfl, rfl⟩

/-- C5 amended: a write failure that is not a Conflict (any thrown error
whose `status` is not 409 — network errors carry no status at all) is *not*
retried: it is rethrown into the outer catch, which immediately falls back
to the local store on the first such failure, with no backoff wait and no
further write attempt; the retry budget is reserved for 409 alone. -/
theorem C5_amended_transient_not_retried (sc : Script) (sn r : String)
    (sha : Option String) (rc : Nat) (st : St) (e : Option Nat)
    (hL : st.usingLocal = false)
    (hw : sc.writes st.writeCount = .error e) (h409 : e ≠ some 409)
    (hv : hasStr (updateAssignedRecipients st.state).assignedRecipients r = false) :
    ∃ st', proceedWrite sc sn r sha rc st = .done st' (.fallenBack r) ∧
      st'.waits = st.waits ∧
      st'.writeCount = st.writeCount + 1 ∧
      st'.usingLocal = true ∧
      st'.localWrites = st.localWrites ++
        [(addAssignment (updateAssignedRecipients st.state) sn r).assignments] := by
  rw [proceedWrite_non409_fallback sc sn r sha rc st e hL hw h409 hv]
  exact ⟨_, rfl, rfl, rfl, rfl, rfl⟩

/-- Witness for `C5_amended_transient_not_retried` at the concrete transient
store and a fresh client. -/
theorem C5_amended_transient_not_retried_witness :
    ∃ st', proceedWrite transientScript "A" "B" (some "0") 0 (initSt smallClient)
        = .done st' (.fallenBack "B") ∧
      st'.waits = (initSt smallClient).waits ∧
      st'.writeCount = (initSt smallClient).writeCount + 1 ∧
      st'.usingLocal = true ∧
      st'.localWrites = (initSt smallClient).localWrites ++
        [(addAssignment (updateAssignedRecipients (initSt smallClient).state) "A" "B").assignments] :=
  C5_amended_transient_not_retried transientScript "A" "B" (some "0") 0
    (initSt smallClient) none rfl rfl (by decide) rfl

/-- C6: against a store whose write fails with Forbidden (HTTP 403),
`commitAssignment` terminates on its very first attempt in the FallenBack
state: no backoff wait and no second write attempt occur, the local store
becomes active, the in-memory ledger — including the spin's entry — is
written to the local store with no version check (`LocalStore.putFile`
ignores the sha), and the assigned recipient is still reported. -/
theorem C6_fallback_on_forbidden (sc : Script) (identity spinnerName : String)
    (isAdjustment : Bool) (r : String) (st : St)
    (hL : st.usingLocal = false)
    (hread : sc.reads st.readCount = .ok (none, none))
    (hw : sc.writes st.writeCount = .error (some 403))
    (hv : hasStr (updateAssignedRecipients st.state).assignedRecipients r = false) :
    ∃ st', commitAssignment sc identity spinnerName isAdjustment r st
        = (st', .fallenBack r) ∧
      st'.usingLocal = true ∧
      st'.waits = st.waits ∧
      st'.writeCount = st.writeCount + 1 ∧
      st'.localData =
        some (addAssignment (updateAssignedRecipients st.state) spinnerName r).assignments ∧
      st'.localWrites = st.localWrites ++
        [(addAssignment (updateAssignedRecipients st.state) spinnerName r).assignments] := by
  have hiter : commitIter sc identity spinnerName isAdjustment r 0 st
      = .done
          { st with
              state := addAssignment (updateAssignedRecipients st.state) spinnerName r,
              usingLocal := true,
              localData :=
                some (addAssignment (updateAssignedRecipients st.state) spinnerName r).assignments,
              readCount := st.readCount + 1,
              readShas := st.readShas ++ [none],
              writeCount := st.writeCount + 1,
              writeLog := st.writeLog ++
                [((addAssignment (updateAssignedRecipients st.state) spinnerName r).assignments,
                  (none : Option String))],
              localWrites := st.localWrites ++
                [(addAssignment (updateAssignedRecipients st.state) spinnerName r).assignments] }
          (.fallenBack r) := by
    unfold commitIter
    rw [readPhase_remote_ok sc st none none hL hread]
    dsimp only
    exact proceedWrite_non409_fallback sc spinnerName r none 0
      { st with readCount := st.readCount + 1, readShas := st.readShas ++ [none] }
      (some 403) hL hw (by decide) hv
  obtain ⟨m, hm⟩ : ∃ m, effRetries sc = m + 1 :=
    ⟨effRetries sc - 1, by have := effRetries_pos sc; omega⟩
  unfold commitAssignment
  rw [hm]
  unfold commitLoop
  rw [hiter]
  exact ⟨_, rfl, rfl, rfl, rfl, rfl, rfl⟩

/-- Witness for `C6_fallback_on_forbidden` at the concrete always-Forbidden
store and a fresh client. -/
theorem C6_fallback_on_forbidden_witness :
    ∃ st', commitAssignment forbiddenScript "A" "A" false "B" (initSt smallClient)
        = (st', .fallenBack "B") ∧
      st'.usingLocal = true ∧
      st'.waits = (initSt smallClient).waits ∧
      st'.writeCount = (initSt smallClient).writeCount + 1 ∧
      st'.localData =
        some (addAssignment (updateAssignedRecipients (initSt smallClient).state) "A" "B").assignments ∧
      st'.localWrites = (initSt smallClient).localWrites ++
        [(addAssignment (updateAssignedRecipients (initSt smallClient).state) "A" "B").assignments] :=
  C6_fallback_on_forbidden forbiddenScript "A" "A" false "B" (initSt smallClient)
    rfl rfl rfl rfl

theorem proceedWrite_recipient (sc : Script) (sn r : String) (sha : Option String)
    (rc : Nat) (st : St) (idt : String) (hr : r ≠ idt) :
    (∀ st' res, proceedWrite sc sn r sha rc st = .done st' res →
        ∀ x, resultRecipient res = some x → x ≠ idt) ∧
    (∀ st' r' rc', proceedWrite sc sn r sha rc st = .again st' r' rc' → r' ≠ idt) := by
  rcases proceedWrite_cases sc sn r sha rc st with
    ⟨s1, h⟩ | ⟨s1, h⟩ | ⟨s1, h⟩ | ⟨s1, h, hlt⟩ <;> rw [h]
  · refine ⟨?_, ?_⟩
    · intro st' res heq
      cases heq
      intro x hx
      have : r = x := by simpa [resultRecipient] using hx
      rw [← this]
      exact hr
    · intro st' r' rc' heq
      cases heq
  · refine ⟨?_, ?_⟩
    · intro st' res heq
      cases heq
      intro x hx
      have : r = x := by simpa [resultRecipient] using hx
      rw [← this]
      exact hr
    · intro st' r' rc' heq
      cases heq
  · refine ⟨?_, ?_⟩
    · intro st' res heq
      cases heq
      intro x hx
      simp [resultRecipient] at hx
    · intro st' r' rc' heq
      cases heq
  · refine ⟨?_, ?_⟩
    · intro st' res heq
      cases heq
    · intro st' r' rc' heq
      cases heq
      exact hr

theorem isEmpty_ne_nil (l : List String) (h : ¬ l.isEmpty = true) : l ≠ [] :=
  fun h0 => h (by rw [h0]; rfl)

theorem commitIter_recipient (sc : Script) (idt sn : String) (adj : Bool)
    (r : String) (rc : Nat) (st : St) (hid : idt ≠ "") (hr : r ≠ idt) :
    (∀ st' res, commitIter sc idt sn adj r rc st = .done st' res →
        ∀ x, resultRecipient res = some x → x ≠ idt) ∧
    (∀ st' r' rc', commitIter sc idt sn adj r rc st = .again st' r' rc' → r' ≠ idt) := by
  have hpick : ∀ (s1 : SState) (n : Nat),
      getEligibleRecipients s1 idt ≠ [] →
      pickFrom (getEligibleRecipients s1 idt) n ≠ idt :=
    fun s1 n hn => mem_eligible_ne _ idt _ hid (pickFrom_mem _ n hn)
  unfold commitIter
  dsimp only
  split
  · split
    · split
      · refine ⟨?_, ?_⟩
        · intro st' res heq
          cases heq
          intro x hx
          simp [resultRecipient] at hx
        · intro st' r' rc' heq
          cases heq
      · next hne =>
        split
        · refine ⟨?_, ?_⟩
          · intro st' res heq
            cases heq
            intro x hx
            simp only [resultRecipient] at hx
            cases hx
            exact hpick _ _ (isEmpty_ne_nil _ hne)
          · intro st' r' rc' heq
            cases heq
        · exact proceedWrite_recipient sc sn _ _ rc _ idt (hpick _ _ (isEmpty_ne_nil _ hne))
    · exact proceedWrite_recipient sc sn r _ rc _ idt hr
  · exact proceedWrite_recipient sc sn r _ rc _ idt hr
theorem commitLoop_recipient (sc : Script) (idt sn : String) (adj : Bool)
    (hid : idt ≠ "") :
    ∀ (fuel : Nat) (r : String) (rc : Nat) (st : St), r ≠ idt →
      ∀ x, resultRecipient (commitLoop sc idt sn adj fuel r rc st).2 = some x →
        x ≠ idt := by
  intro fuel
  induction fuel with
  | zero =>
    intro r rc st hr x hx
    simp [commitLoop, resultRecipient] at hx
  | succ n ih =>
    intro r rc st hr x hx
    unfold commitLoop at hx
    cases hcase : commitIter sc idt sn adj r rc st with
    | done st' res =>
      rw [hcase] at hx
      have hx' : resultRecipient res = some x := hx
      exact (commitIter_recipient sc idt sn adj r rc st hid hr).1 st' res hcase x hx'
    | again st' r' rc' =>
      rw [hcase] at hx
      have hr' : r' ≠ idt :=
        (commitIter_recipient sc idt sn adj r rc st hid hr).2 st' r' rc' hcase
      have hx' : resultRecipient (commitLoop sc idt sn adj n r' rc' st').2 = some x := hx
      exact ih r' rc' st' hr' x hx'

/-- C3: when the spinner declares a non-empty identity, the recipient the
spin flow reports (on Committed or FallenBack, or hands to the adjustment
spin) is never that identity: the identity is filtered out of the eligible
set at the initial selection and at every re-validation re-pick before the
write. -/
theorem C3_no_self_assignment (sc : Script) (identity : String) (st : St)
    (x : String) (hid : identity ≠ "")
    (hx : resultRecipient (runSpin sc identity st).2 = some x) :
    x ≠ identity := by
  unfold runSpin at hx
  dsimp only at hx
  split at hx
  · simp [resultRecipient] at hx
  · next hne =>
    split at hx
    · simp [resultRecipient] at hx
    · have hnil : getEligibleRecipients (updateAssignedRecipients st.state) identity ≠ [] :=
        isEmpty_ne_nil _ hne
      have htar := mem_eligible_ne _ identity _ hid
        (pickFrom_mem _ (sc.picks st.pickIdx) hnil)
      have hloop := commitLoop_recipient sc identity identity false hid
      rcases hca : commitAssignment sc identity identity false
          (pickFrom (getEligibleRecipients (updateAssignedRecipients st.state) identity)
            (sc.picks st.pickIdx))
          { st with
              state := updateAssignedRecipients st.state,
              pickIdx := st.pickIdx + 1 } with ⟨st2, res⟩
      rw [hca] at hx
      have hfirst : ∀ y, resultRecipient res = some y → y ≠ identity := by
        intro y hy
        refine hloop (effRetries sc)
          (pickFrom (getEligibleRecipients (updateAssignedRecipients st.state) identity)
            (sc.picks st.pickIdx)) 0
          { st with
              state := updateAssignedRecipients st.state,
              pickIdx := st.pickIdx + 1 } htar y ?_
        have hcl : commitLoop sc identity identity false (effRetries sc)
            (pickFrom (getEligibleRecipients (updateAssignedRecipients st.state) identity)
              (sc.picks st.pickIdx)) 0
            { st with
                state := updateAssignedRecipients st.state,
                pickIdx := st.pickIdx + 1 } = (st2, res) := hca
        rw [hcl]
        exact hy
      cases res with
      | committed r => exact hfirst x hx
      | fallenBack r => exact hfirst x hx
      | adjusting r' =>
        have hr' : r' ≠ identity := hfirst r' rfl
        have hx' : resultRecipient
            (commitAssignment sc identity identity true r' st2).2 = some x := hx
        exact commitLoop_recipient sc identity identity true hid
          (effRetries sc) r' 0 st2 hr' x hx'
      | noEligible => simp [resultRecipient] at hx
      | failedLocal => simp [resultRecipient] at hx
      | retriesExhausted => simp [resultRecipient] at hx
      | rejected => simp [resultRecipient] at hx
      | pickErr => simp [resultRecipient] at hx

/-- Witness for `C3_no_self_assignment`: the first chain run declares
identity `A` and commits recipient `B`. -/
theorem C3_no_self_assignment_witness :
    ("A" : String) ≠ "" ∧
    resultRecipient chainRun1.2 = some "B" ∧
    ("B" : String) ≠ "A" :=
  ⟨by decide, rfl,
    C3_no_self_assignment (okScript [] "s0" 0) "A"
      (initSt { participants := santaParts, assignments := [], assignedRecipients := [] })
      "B" (by decide) rfl⟩

theorem eligible_empty_any_ident (s : SState) (identity : String)
    (h : getEligibleRecipients s "" = []) : getEligibleRecipients s identity = [] := by
  unfold getEligibleRecipients at h ⊢
  dsimp only at h ⊢
  rw [if_pos rfl] at h
  by_cases hid : identity = ""
  · rw [if_pos hid]
    exact h
  · rw [if_neg hid, h]
    rfl

theorem update_idem (s : SState) :
    updateAssignedRecipients (updateAssignedRecipients s) = updateAssignedRecipients s := rfl

theorem runSpin_exhausted (sc : Script) (identity : String) (st : St)
    (h : getEligibleRecipients (updateAssignedRecipients st.state) "" = []) :
    runSpin sc identity st
      = ({ st with state := updateAssignedRecipients st.state }, .rejected) := by
  unfold runSpin
  dsimp only
  rw [eligible_empty_any_ident _ identity h]
  rfl

/-- C7: once `getEligibleRecipients` with no exclusion is empty, every
subsequent spin request is rejected before any store interaction: each
`handleSpin` reports "no eligible recipients" and returns, leaving the
assignments mapping untouched, issuing no remote read or write and no local
write — so no later commit can succeed and no new assignment ever appears. -/
theorem C7_exhaustion_rejects_all (sc : Script) (st : St) (idents : List String)
    (h : getEligibleRecipients (updateAssignedRecipients st.state) "" = []) :
    (∀ res ∈ (runSpinSeq sc idents st).2, res = CommitResult.rejected) ∧
    (runSpinSeq sc idents st).1.state.assignments = st.state.assignments ∧
    (runSpinSeq sc idents st).1.writeLog = st.writeLog ∧
    (runSpinSeq sc idents st).1.localWrites = st.localWrites ∧
    (runSpinSeq sc idents st).1.readCount = st.readCount := by
  induction idents generalizing st with
  | nil =>
    exact ⟨fun res hres => absurd hres (List.not_mem_nil res), rfl, rfl, rfl, rfl⟩
  | cons i rest ih =>
    have hrs := runSpin_exhausted sc i st h
    unfold runSpinSeq
    rw [hrs]
    dsimp only
    have h' : getEligibleRecipients
        (updateAssignedRecipients
          ({ st with state := updateAssignedRecipients st.state }).state) "" = [] := h
    obtain ⟨h1, h2, h3, h4, h5⟩ :=
      ih { st with state := updateAssignedRecipients st.state } h'
    refine ⟨?_, ?_, h3, h4, h5⟩
    · intro res hres
      rcases List.mem_cons.mp hres with hres | hres
      · exact hres
      · exact h1 res hres
    · rw [h2]
      rfl

/-- Witness for `C7_exhaustion_rejects_all`: a client whose two participants
are both already assigned; an anonymous spin and a spin declared as `A` are
both rejected and nothing is read or written. -/
theorem C7_exhaustion_rejects_all_witness :
    getEligibleRecipients (updateAssignedRecipients (initSt exhaustedClient).state) "" = [] ∧
    (∀ res ∈ (runSpinSeq (okScript [] "s9" 0) ["", "A"] (initSt exhaustedClient)).2,
        res = CommitResult.rejected) ∧
    (runSpinSeq (okScript [] "s9" 0) ["", "A"] (initSt exhaustedClient)).1.state.assignments
      = (initSt exhaustedClient).state.assignments ∧
    (runSpinSeq (okScript [] "s9" 0) ["", "A"] (initSt exhaustedClient)).1.writeLog
      = (initSt exhaustedClient).writeLog ∧
    (runSpinSeq (okScript [] "s9" 0) ["", "A"] (initSt exhaustedClient)).1.localWrites
      = (initSt exhaustedClient).localWrites ∧
    (runSpinSeq (okScript [] "s9" 0) ["", "A"] (initSt exhaustedClient)).1.readCount
      = (initSt exhaustedClient).readCount := by
  have h := C7_exhaustion_rejects_all (okScript [] "s9" 0) (initSt exhaustedClient)
    ["", "A"] (by decide)
  exact ⟨by decide, h.1, h.2.1, h.2.2.1, h.2.2.2.1, h.2.2.2.2⟩
